import Mathlib

set_option maxRecDepth 100000

/-!
Verification of the gmo-coin trade-history client: the transport abstraction
(`http_client.rs`), the typed decode pipeline for the trades endpoint
(`public/trades.rs`), and the string-to-number / timestamp field converters.
Components of the crate that live outside the two reviewed files (the JSON
field converters, the error enum, the response envelopes, the symbol
enumeration and the endpoint constant) are modelled from the design
specification; their doc comments say so explicitly.
-/

namespace GmoCoin

/-! ## JSON documents

`Modelled from the spec:` the wire format is JSON (consumed through the
external `serde_json` crate).  A document is represented exactly, with
number literals kept in decimal form: an integer literal (no fraction, no
exponent) becomes `jint`, any other numeric literal becomes `jdec` holding
its exact rational value. -/

/-- An exact decimal value, `mant × 10 ^ exp10`.  This is how the model
keeps the numbers the exchange string-encodes: the spec asks only that
`size` round-trip "to available 64-bit floating-point precision", and the
model idealizes `f64` by the exact value it would approximate. -/
structure DecimalVal where
  mant : Int
  exp10 : Int
deriving DecidableEq

/-- The rational number a `DecimalVal` denotes. -/
def DecimalVal.toRat (d : DecimalVal) : Rat := (d.mant : Rat) * (10 : Rat) ^ d.exp10

/-- A JSON value.  Number literals without a fraction or exponent are kept
as `jint`; fractional/exponent literals are kept as their exact decimal
value in `jdec` (the model of what `serde_json` reads as a float). -/
inductive Json where
  | jnull : Json
  | jbool : Bool → Json
  | jint : Int → Json
  | jdec : DecimalVal → Json
  | jstr : String → Json
  | jarr : List Json → Json
  | jobj : List (String × Json) → Json

/-- Decimal digit test on the code point, kept arithmetic so that `omega`
can use it. -/
def isDigitB (c : Char) : Bool := 48 ≤ c.toNat && c.toNat ≤ 57

/-- Numeric value of one digit character. -/
def digitVal (c : Char) : Nat := c.toNat - 48

/-- Value of a big-endian digit string, by left fold. -/
def digitsVal (ds : List Char) : Nat :=
  ds.foldl (fun a c => 10 * a + digitVal c) 0

/-- JSON insignificant whitespace. -/
def isJsonWs (c : Char) : Bool := c = ' ' || c = '\t' || c = '\n' || c = '\r'

/-- Drop leading whitespace. -/
def dropWs : List Char → List Char
  | [] => []
  | c :: r => if isJsonWs c then dropWs r else c :: r

/-- Longest leading run of digit characters, with the remainder. -/
def grabDigits : List Char → List Char × List Char
  | [] => ([], [])
  | c :: r =>
    if isDigitB c then
      let (ds, rest) := grabDigits r
      (c :: ds, rest)
    else ([], c :: r)

/-- Value of a hexadecimal digit character, if it is one. -/
def hexDigitVal (c : Char) : Option Nat :=
  if 48 ≤ c.toNat && c.toNat ≤ 57 then some (c.toNat - 48)
  else if 97 ≤ c.toNat && c.toNat ≤ 102 then some (c.toNat - 87)
  else if 65 ≤ c.toNat && c.toNat ≤ 70 then some (c.toNat - 55)
  else none

/-- Decode the body of a JSON string literal, after its opening quote:
returns the decoded text and the input after the closing quote. -/
def readStringBody (fuel : Nat) (acc : List Char) (cs : List Char) :
    Except String (String × List Char) :=
  match fuel, cs with
  | _, [] => .error "unterminated string literal"
  | 0, _ => .error "string literal too long"
  | fuel + 1, c :: rest =>
    if c = '"' then .ok (String.mk acc.reverse, rest)
    else if c = '\\' then
      match rest with
      | [] => .error "unterminated escape"
      | e :: rest2 =>
        if e = 'u' then
          match rest2 with
          | a :: b :: c3 :: d :: rest3 =>
            match hexDigitVal a, hexDigitVal b, hexDigitVal c3, hexDigitVal d with
            | some va, some vb, some vc, some vd =>
                readStringBody fuel
                  (Char.ofNat (((va * 16 + vb) * 16 + vc) * 16 + vd) :: acc) rest3
            | _, _, _, _ => .error "bad unicode escape"
          | _ => .error "bad unicode escape"
        else
          match
            (if e = '"' then some '"'
             else if e = '\\' then some '\\'
             else if e = '/' then some '/'
             else if e = 'n' then some '\n'
             else if e = 't' then some '\t'
             else if e = 'r' then some '\r'
             else if e = 'b' then some (Char.ofNat 8)
             else if e = 'f' then some (Char.ofNat 12)
             else none) with
          | some d => readStringBody fuel (d :: acc) rest2
          | none => .error "bad escape character"
    else readStringBody fuel (c :: acc) rest

/-- Read a JSON number token.  An optional minus sign, an integer part,
then optionally a fraction and an exponent; integer literals come back as
`jint`, the others as `jdec` with the exact value. -/
def readNumber (cs : List Char) : Except String (Json × List Char) :=
  let (neg, cs1) := match cs with
    | c :: r => if c = '-' then (true, r) else (false, cs)
    | [] => (false, cs)
  let (ip, cs2) := grabDigits cs1
  if ip = [] then .error "malformed number"
  else
    let (hasFrac, fp, cs3) := match cs2 with
      | c :: r =>
        if c = '.' then
          let (ds, rest) := grabDigits r
          (true, ds, rest)
        else (false, [], cs2)
      | [] => (false, [], cs2)
    if hasFrac ∧ fp = [] then .error "malformed number"
    else
      let (hasExp, expNeg, ep, cs4) := match cs3 with
        | c :: r =>
          if c = 'e' ∨ c = 'E' then
            match r with
            | s :: r2 =>
              if s = '+' then
                let (ds, rest) := grabDigits r2
                (true, false, ds, rest)
              else if s = '-' then
                let (ds, rest) := grabDigits r2
                (true, true, ds, rest)
              else
                let (ds, rest) := grabDigits r
                (true, false, ds, rest)
            | [] => (true, false, [], r)
          else (false, false, [], cs3)
        | [] => (false, false, [], cs3)
      if hasExp ∧ ep = [] then .error "malformed number"
      else
        let sgn : Int := if neg then -1 else 1
        if hasFrac ∨ hasExp then
          let mant : Int := sgn * (digitsVal (ip ++ fp) : Int)
          let e10 : Int := (if expNeg then -(digitsVal ep : Int) else (digitsVal ep : Int))
                              - (fp.length : Int)
          .ok (.jdec ⟨mant, e10⟩, cs4)
        else
          .ok (.jint (sgn * (digitsVal ip : Int)), cs2)

mutual

/-- Read one JSON value (fuel-bounded so the recursion is structural). -/
def readValue (fuel : Nat) (cs : List Char) : Except String (Json × List Char) :=
  match fuel with
  | 0 => .error "input exhausted"
  | fuel + 1 =>
    match dropWs cs with
    | [] => .error "expected a value"
    | c :: rest =>
      if c = 'n' then
        match rest with
        | 'u' :: 'l' :: 'l' :: r => .ok (.jnull, r)
        | _ => .error "bad literal"
      else if c = 't' then
        match rest with
        | 'r' :: 'u' :: 'e' :: r => .ok (.jbool true, r)
        | _ => .error "bad literal"
      else if c = 'f' then
        match rest with
        | 'a' :: 'l' :: 's' :: 'e' :: r => .ok (.jbool false, r)
        | _ => .error "bad literal"
      else if c = '"' then
        match readStringBody (rest.length + 1) [] rest with
        | .ok (s, r) => .ok (.jstr s, r)
        | .error e => .error e
      else if c = '[' then
        match dropWs rest with
        | ']' :: r => .ok (.jarr [], r)
        | r2 => match readItems fuel r2 with
          | .ok (vs, r) => .ok (.jarr vs, r)
          | .error e => .error e
      else if c = '\x7b' then
        match dropWs rest with
        | '\x7d' :: r => .ok (.jobj [], r)
        | r2 => match readPairs fuel r2 with
          | .ok (ms, r) => .ok (.jobj ms, r)
          | .error e => .error e
      else if c = '-' ∨ isDigitB c then
        readNumber (c :: rest)
      else .error "unexpected character"

/-- Read the comma-separated values of a non-empty array, up to `]`. -/
def readItems (fuel : Nat) (cs : List Char) : Except String (List Json × List Char) :=
  match fuel with
  | 0 => .error "input exhausted"
  | fuel + 1 =>
    match readValue fuel cs with
    | .error e => .error e
    | .ok (v, r) =>
      match dropWs r with
      | ',' :: r2 =>
        match readItems fuel r2 with
        | .ok (vs, r3) => .ok (v :: vs, r3)
        | .error e => .error e
      | ']' :: r2 => .ok ([v], r2)
      | _ => .error "expected comma or close bracket"

/-- Read the comma-separated members of a non-empty object, up to the
closing brace. -/
def readPairs (fuel : Nat) (cs : List Char) :
    Except String (List (String × Json) × List Char) :=
  match fuel with
  | 0 => .error "input exhausted"
  | fuel + 1 =>
    match dropWs cs with
    | '"' :: r =>
      match readStringBody (r.length + 1) [] r with
      | .error e => .error e
      | .ok (key, r1) =>
        match dropWs r1 with
        | ':' :: r2 =>
          match readValue fuel r2 with
          | .error e => .error e
          | .ok (v, r3) =>
            match dropWs r3 with
            | ',' :: r4 =>
              match readPairs fuel r4 with
              | .ok (ms, r5) => .ok ((key, v) :: ms, r5)
              | .error e => .error e
            | '\x7d' :: r4 => .ok ([(key, v)], r4)
            | _ => .error "expected comma or close brace"
        | _ => .error "expected colon"
    | _ => .error "expected member key"

end

/-- Parse a whole JSON document: one value, possibly surrounded by
whitespace, nothing after it. -/
def Json.parseDoc (s : String) : Except String Json :=
  match readValue (s.length + 1) s.toList with
  | .error e => .error e
  | .ok (j, r) =>
    match dropWs r with
    | [] => .ok j
    | _ => .error "trailing input after document"

/-! ## UTC instants -/

/-- Modelled from the spec: a chrono `DateTime<Utc>` — "a normalized UTC
instant" — represented by its civil fields.  For fields within their valid
calendar ranges (which is all the timestamp parser ever produces),
equality of instants coincides with equality of the fields. -/
structure DateTime where
  year : Nat
  month : Nat
  day : Nat
  hour : Nat
  minute : Nat
  second : Nat
  millis : Nat
deriving DecidableEq

/-- Gregorian leap-year rule. -/
def isLeapYear (y : Nat) : Bool := y % 4 = 0 && (y % 100 ≠ 0 || y % 400 = 0)

/-- Length of a month in the given year. -/
def daysInMonth (y m : Nat) : Nat :=
  if m = 2 then (if isLeapYear y then 29 else 28)
  else if m = 4 ∨ m = 6 ∨ m = 9 ∨ m = 11 then 30
  else 31

/-- Calendar validity, as enforced by the timestamp parser. -/
def DateTime.valid (t : DateTime) : Bool :=
  decide (t.year ≤ 9999) && decide (1 ≤ t.month) && decide (t.month ≤ 12) &&
    decide (1 ≤ t.day) && decide (t.day ≤ daysInMonth t.year t.month) &&
    decide (t.hour < 24) && decide (t.minute < 60) && decide (t.second < 60) &&
    decide (t.millis < 1000)

/-- Fixed-width numeric field: the next `w` characters must all be digits;
returns their value and the remaining input. -/
def fixedNat (w : Nat) (cs : List Char) : Except String (Nat × List Char) :=
  if (cs.take w).length = w ∧ (cs.take w).all isDigitB
  then .ok (digitsVal (cs.take w), cs.drop w)
  else .error "expected digits in timestamp"

/-- The next character must be `c`. -/
def expectChar (c : Char) (cs : List Char) : Except String (List Char) :=
  match cs with
  | x :: r => if x = c then .ok r else .error "unexpected character in timestamp"
  | [] => .error "timestamp truncated"

/-- Modelled from the spec: the exchange timestamp format
`YYYY-MM-DDTHH:MM:SS.mmmZ` (the format of every documented sample), parsed
and validated to a normalized UTC instant; any other string is a parse
error, never a crash. -/
def parseGmoTimestamp (s : String) : Except String DateTime := do
  let cs := s.toList
  let (y, r1) ← fixedNat 4 cs
  let r2 ← expectChar '-' r1
  let (mo, r3) ← fixedNat 2 r2
  let r4 ← expectChar '-' r3
  let (d, r5) ← fixedNat 2 r4
  let r6 ← expectChar 'T' r5
  let (h, r7) ← fixedNat 2 r6
  let r8 ← expectChar ':' r7
  let (mi, r9) ← fixedNat 2 r8
  let r10 ← expectChar ':' r9
  let (sec, r11) ← fixedNat 2 r10
  let r12 ← expectChar '.' r11
  let (ms, r13) ← fixedNat 3 r12
  let r14 ← expectChar 'Z' r13
  let t : DateTime := ⟨y, mo, d, h, mi, sec, ms⟩
  if r14 = [] ∧ t.valid then .ok t
  else .error ("invalid timestamp: " ++ s)

/-! ## String-encoded number converters -/

/-- Consume an optional leading sign: `-1` for a minus, `1` otherwise (a
leading `+` is also consumed, as Rust's integer parsing accepts one). -/
def stripSign (cs : List Char) : Int × List Char :=
  match cs with
  | [] => (1, [])
  | c :: r => if c = '-' then (-1, r) else if c = '+' then (1, r) else (1, c :: r)

/-- The `i64` range test. -/
def inI64 (n : Int) : Bool := decide (-(2 ^ 63) ≤ n) && decide (n < 2 ^ 63)

/-- Validation and evaluation of a signed digit string against the `i64`
range (the core of the modelled `parse::<i64>()`). -/
def i64Core (s : String) (sgn : Int) (ds : List Char) : Except String Int :=
  if ds ≠ [] ∧ ds.all isDigitB then
    if inI64 (sgn * (digitsVal ds : Int)) then .ok (sgn * (digitsVal ds : Int))
    else .error ("integer out of range for i64: " ++ s)
  else .error ("invalid integer string: " ++ s)

/-- Modelled from the spec: parsing a string as a signed 64-bit integer the
way `parse::<i64>()` does — an optional sign followed by one or more
digits, rejected on overflow; anything else is a descriptive error. -/
def i64OfString (s : String) : Except String Int :=
  i64Core s (stripSign s.toList).1 (stripSign s.toList).2

/-- Split at the first dot, keeping whatever follows it. -/
def splitAtDot : List Char → List Char × Option (List Char)
  | [] => ([], none)
  | c :: r =>
    if c = '.' then ([], some r)
    else (c :: (splitAtDot r).1, (splitAtDot r).2)

/-- Modelled from the spec: parsing a string-encoded decimal (the wire form
of `size`, e.g. `"0.1"`) to its numeric value — an optional sign, one or
more digits, optionally a dot followed by one or more fraction digits.
The value is kept exact (a `DecimalVal`): the spec only requires
round-tripping "to available 64-bit floating-point precision", and the
model idealizes `f64` by the exact value. -/
def f64Core (s : String) (sgn : Int) (ip : List Char) (fpOpt : Option (List Char)) :
    Except String DecimalVal :=
  match fpOpt with
  | none =>
    if ip ≠ [] ∧ ip.all isDigitB then .ok ⟨sgn * (digitsVal ip : Int), 0⟩
    else .error ("invalid decimal string: " ++ s)
  | some fp =>
    if ip ≠ [] ∧ ip.all isDigitB ∧ fp ≠ [] ∧ fp.all isDigitB then
      .ok ⟨sgn * (digitsVal (ip ++ fp) : Int), -(fp.length : Int)⟩
    else .error ("invalid decimal string: " ++ s)

/-- The string-encoded decimal parser: strip the sign, split at the dot,
evaluate. -/
def f64OfString (s : String) : Except String DecimalVal :=
  f64Core s (stripSign s.toList).1 (splitAtDot (stripSign s.toList).2).1
    (splitAtDot (stripSign s.toList).2).2

/-- Modelled from the spec: `json.rs`'s `str_to_i64` field deserializer — a
string-encoded signed 64-bit integer; the repository's own sample response
also encodes the pagination fields as bare JSON integers, so a bare
integer literal is accepted too (range-checked); any other value is a
descriptive error. -/
def str_to_i64 (j : Json) : Except String Int :=
  match j with
  | .jstr s => i64OfString s
  | .jint n => if inI64 n then .ok n else .error "integer out of range for i64"
  | _ => .error "expected a string-encoded integer"

/-- Modelled from the spec: `json.rs`'s `str_to_f64` field deserializer — a
string-encoded decimal number (bare number literals also accepted). -/
def str_to_f64 (j : Json) : Except String DecimalVal :=
  match j with
  | .jstr s => f64OfString s
  | .jint n => .ok ⟨n, 0⟩
  | .jdec q => .ok q
  | _ => .error "expected a string-encoded number"

/-- Modelled from the spec: `json.rs`'s `gmo_timestamp_to_chrono_timestamp`
field deserializer — the exchange timestamp string, converted to a
normalized UTC instant. -/
def gmo_timestamp_to_chrono_timestamp (j : Json) : Except String DateTime :=
  match j with
  | .jstr s => parseGmoTimestamp s
  | _ => .error "expected a timestamp string"

/-! ## The trades data model (struct shapes from `public/trades.rs`) -/

/-- One trade of the trade-history response: `price` through `str_to_i64`,
`side` a plain string, `size` through `str_to_f64`, `timestamp` through
the exchange-timestamp converter. -/
structure Trade where
  price : Int
  side : String
  size : DecimalVal
  timestamp : DateTime
deriving DecidableEq

/-- The pagination block: both fields through `str_to_i64`. -/
structure Pagination where
  currentPage : Int
  count : Int
deriving DecidableEq

/-- The `data` part of the envelope: the trade list and the pagination. -/
structure Data where
  list : List Trade
  pagination : Pagination
deriving DecidableEq

/-- The whole decoded envelope: `status` (i16), `responsetime` through the
timestamp converter, and `data`. -/
structure Trades where
  status : Int
  responsetime : DateTime
  data : Data
deriving DecidableEq

/-- Object field lookup; a missing field is a descriptive error, as under
serde. -/
def getField (kvs : List (String × Json)) (k : String) : Except String Json :=
  match kvs.find? (fun kv => kv.1 == k) with
  | some kv => .ok kv.2
  | none => .error ("missing field " ++ k)

/-- serde's default string deserializer. -/
def jsonToString (j : Json) : Except String String :=
  match j with
  | .jstr s => .ok s
  | _ => .error "expected a string"

/-- serde's default `i16` deserializer: a bare integer literal in range. -/
def jsonToI16 (j : Json) : Except String Int :=
  match j with
  | .jint n =>
    if -(2 ^ 15) ≤ n ∧ n < 2 ^ 15 then .ok n
    else .error "integer out of range for i16"
  | _ => .error "expected an integer"

/-- Deserialize one `Trade` (the derived instance with the three custom
field converters of `public/trades.rs`). -/
def Trade.fromJson (j : Json) : Except String Trade :=
  match j with
  | .jobj kvs => do
    let price ← getField kvs "price" >>= str_to_i64
    let side ← getField kvs "side" >>= jsonToString
    let size ← getField kvs "size" >>= str_to_f64
    let timestamp ← getField kvs "timestamp" >>= gmo_timestamp_to_chrono_timestamp
    .ok ⟨price, side, size, timestamp⟩
  | _ => .error "expected an object for Trade"

/-- Deserialize the pagination block. -/
def Pagination.fromJson (j : Json) : Except String Pagination :=
  match j with
  | .jobj kvs => do
    let cp ← getField kvs "currentPage" >>= str_to_i64
    let ct ← getField kvs "count" >>= str_to_i64
    .ok ⟨cp, ct⟩
  | _ => .error "expected an object for Pagination"

/-- Deserialize the `data` part. -/
def Data.fromJson (j : Json) : Except String Data :=
  match j with
  | .jobj kvs => do
    let lj ← getField kvs "list"
    let lst ← match lj with
      | .jarr items => items.mapM Trade.fromJson
      | _ => .error "expected an array for list"
    let pg ← getField kvs "pagination" >>= Pagination.fromJson
    .ok ⟨lst, pg⟩
  | _ => .error "expected an object for Data"

/-- Deserialize the whole envelope. -/
def Trades.fromJson (j : Json) : Except String Trades :=
  match j with
  | .jobj kvs => do
    let st ← getField kvs "status" >>= jsonToI16
    let rt ← getField kvs "responsetime" >>= gmo_timestamp_to_chrono_timestamp
    let dt ← getField kvs "data" >>= Data.fromJson
    .ok ⟨st, rt, dt⟩
  | _ => .error "expected an object for Trades"

/-- Decode a raw body text as the trades envelope: parse the JSON document,
then deserialize `Trades` from it. -/
def decodeTradesBody (body : String) : Except String Trades := do
  let j ← Json.parseDoc body
  Trades.fromJson j

/-! ## Transport layer -/

/-- Modelled from the spec: `error.rs`'s error taxonomy (spec section 7) —
a transport failure, a decode failure, and the opaque error reserved for
the test double and unanticipated failures. -/
inductive Error where
  | UnknownError : Error
  | TransportError : String → Error
  | DecodeError : String → Error
deriving DecidableEq

/-- Modelled from the spec: `response.rs`'s `RawResponse` — the HTTP status
code (u16) plus the raw body text. -/
structure RawResponse where
  http_status_code : Nat
  body_text : String
deriving DecidableEq

/-- Modelled from the spec: `response.rs`'s `RestResponse<T>` — the HTTP
status code paired with the decoded body. -/
structure RestResponse (α : Type) where
  http_status_code : Nat
  body : α
deriving DecidableEq

/-- Modelled from the spec: `headers.rs` — a header set; only the empty
set is used by this endpoint. -/
abbrev Headers := List (String × String)

/-- `Headers::create_empty_headers()`. -/
def Headers.create_empty_headers : Headers := []

/-- Modelled from the spec: the exchange symbol enumeration (`symbol.rs`,
an external configuration collaborator); the variants of the public API. -/
inductive Symbol where
  | Btc | Eth | Bch | Ltc | Xrp
deriving DecidableEq

/-- Modelled from the spec: a symbol's canonical string form
(`to_string` in `symbol.rs`). -/
def to_string (s : Symbol) : String :=
  match s with
  | .Btc => "BTC"
  | .Eth => "ETH"
  | .Bch => "BCH"
  | .Ltc => "LTC"
  | .Xrp => "XRP"

/-- Modelled from the spec: `end_point.rs`'s public API base endpoint. -/
def PUBLIC_ENDPOINT : String := "https://api.coin.z.com/public"

/-- The trade-history API path (`TRADES_API_PATH` in `public/trades.rs`). -/
def TRADES_API_PATH : String := "/v1/trades"

/-- The transport capability (the `HttpClient` trait): one `get` operation
taking the URL and the headers, returning a raw response or an error. -/
abbrev HttpClient := String → Headers → Except Error RawResponse

/-- The in-memory test double (`InmemClient` in `http_client.rs`): a fixed
status code, a fixed body text, and the error flag. -/
structure InmemClient where
  http_status_code : Nat
  body_text : String
  return_error : Bool
deriving DecidableEq

/-- `InmemClient::get`: ignores its URL argument; returns the opaque error
when the flag is set, otherwise the configured status and body. -/
def InmemClient.get (c : InmemClient) : HttpClient := fun _url _headers =>
  if c.return_error then .error .UnknownError
  else .ok ⟨c.http_status_code, c.body_text⟩

/-- Modelled from the spec: steps 3–4 of the decode algorithm (the
`parse_from_http_response` helper of the crate's json module): parse the
body as the trades envelope; a parse failure becomes a decode error,
distinct from the transport errors; on success the original HTTP status
code is carried over unchanged. -/
def parse_from_http_response (r : RawResponse) : Except Error (RestResponse Trades) :=
  match decodeTradesBody r.body_text with
  | .ok b => .ok ⟨r.http_status_code, b⟩
  | .error m => .error (.DecodeError m)

/-- The request URL built by `get_trades_with_options` (its `format!`
call over endpoint, path, symbol, page and count). -/
def tradesUrl (symbol : Symbol) (page count : Int) : String :=
  PUBLIC_ENDPOINT ++ TRADES_API_PATH ++ "?symbol=" ++ to_string symbol ++
    "&page=" ++ toString page ++ "&count=" ++ toString count

/-- `get_trades_with_options` (`public/trades.rs`): build the URL, call the
transport with the empty header set, decode the raw response. -/
def get_trades_with_options (http_client : HttpClient) (symbol : Symbol)
    (page count : Int) : Except Error (RestResponse Trades) := do
  let response ← http_client (tradesUrl symbol page count) Headers.create_empty_headers
  parse_from_http_response response

/-- `get_trades` (`public/trades.rs`): the defaulted entry point, page 1
and count 100. -/
def get_trades (http_client : HttpClient) (symbol : Symbol) :
    Except Error (RestResponse Trades) :=
  get_trades_with_options http_client symbol 1 100

/-- `RestResponse::<Trades>::pagination` accessor. -/
def RestResponse.pagination (r : RestResponse Trades) : Pagination :=
  r.body.data.pagination

/-- `RestResponse::<Trades>::trades` accessor. -/
def RestResponse.trades (r : RestResponse Trades) : List Trade :=
  r.body.data.list

/-! ## The network adapter (`Reqwest` in `http_client.rs`) -/

/-- The observable outcomes of calling the network adapter: a response, a
typed error, or a process abort (what Rust's `unwrap` does on failure). -/
inductive GetResult (α : Type) where
  | ok : α → GetResult α
  | fail : Error → GetResult α
  | panicked : String → GetResult α
deriving DecidableEq

/-- Scheme splitter for the URL parser model: finds the first `://`. -/
def splitSchemeSep : List Char → Option (List Char × List Char)
  | [] => none
  | ':' :: '/' :: '/' :: rest => some ([], rest)
  | c :: rest =>
    match splitSchemeSep rest with
    | some (sch, host) => some (c :: sch, host)
    | none => none

/-- Modelled from the spec: `reqwest::Url::parse` (external crate) —
accepts only absolute URLs: a non-empty scheme, the `://` separator, and a
non-empty remainder. -/
def reqwestUrlParse (url : String) : Option String :=
  match splitSchemeSep url.toList with
  | some (sch, host) => if sch ≠ [] ∧ host ≠ [] then some url else none
  | none => none

/-- `Reqwest::get` (`http_client.rs`): parses the URL and calls `unwrap`
on the result, so a malformed URL aborts the process instead of producing
the typed error; on a parsed URL it performs the network GET (abstracted
as the `network` argument) and wraps status and body into `RawResponse`. -/
def Reqwest.get (network : String → Except Error RawResponse) (url : String) :
    GetResult RawResponse :=
  match reqwestUrlParse url with
  | none => .panicked "unwrap on a URL parse failure"
  | some u =>
    match network u with
    | .ok r => .ok ⟨r.http_status_code, r.body_text⟩
    | .error e => .fail e

/-! ## Canonical encoders, for the round-trip properties

The wire format string-encodes its numbers; these encoders produce the
canonical wire string of a value, so that decode-after-encode states the
spec's round-trip property. -/

/-- The character of one decimal digit. -/
def digitChar10 (d : Nat) : Char := Char.ofNat (48 + d)

/-- Big-endian decimal digits of `n`, fuel-bounded so that the recursion
is structural (callers supply `n + 1`, which always suffices). -/
def natDigits : Nat → Nat → List Char
  | 0, _ => []
  | f + 1, n =>
    if n < 10 then [digitChar10 n]
    else natDigits f (n / 10) ++ [digitChar10 (n % 10)]

/-- The decimal digit string of `n`. -/
def encodeNat (n : Nat) : List Char := natDigits (n + 1) n

/-- The canonical decimal encoding of an `i64` value, as Rust's integer
formatting prints it. -/
def encodeI64 (n : Int) : String :=
  if n < 0 then String.mk ('-' :: encodeNat n.natAbs) else String.mk (encodeNat n.natAbs)

/-- Zero-padded fixed-width digit string. -/
def padNat (w n : Nat) : List Char :=
  List.replicate (w - (encodeNat n).length) '0' ++ encodeNat n

/-- Fixed-point decimal encoding `units.frac`, with `prec` fraction
digits (the wire form of `size`, e.g. `0.1`). -/
def encodeFixedDec (units prec frac : Nat) : String :=
  String.mk (encodeNat units ++ '.' :: padNat prec frac)

/-- The exchange timestamp encoding of an instant — chrono's
`to_rfc3339_opts(SecondsFormat::Millis, true)`, the format the in-repo
test compares against. -/
def encodeGmoTimestamp (t : DateTime) : String :=
  String.mk (padNat 4 t.year ++ '-' :: padNat 2 t.month ++ '-' :: padNat 2 t.day ++
    'T' :: padNat 2 t.hour ++ ':' :: padNat 2 t.minute ++ ':' :: padNat 2 t.second ++
    '.' :: padNat 3 t.millis ++ ['Z'])

/-- The reference denotation of an integer numeral, independent of the
parser: an optional sign before a non-empty digit string whose digits
evaluate (via `Nat.ofDigits`, most significant first) to the magnitude,
the signed value lying in the `i64` range. -/
def denotesI64 (s : String) (n : Int) : Prop :=
  ∃ sgn ds,
    ((sgn = 1 ∧ s.toList = ds) ∨ (sgn = 1 ∧ s.toList = '+' :: ds) ∨
      (sgn = -1 ∧ s.toList = '-' :: ds)) ∧
    ds ≠ [] ∧ (∀ c ∈ ds, isDigitB c = true) ∧
    n = sgn * ((Nat.ofDigits 10 ((ds.map digitVal).reverse) : Nat) : Int) ∧
    -(2 ^ 63) ≤ n ∧ n < 2 ^ 63

/-- The Scenario A response body of the spec (the repository's own sample
response, in compact form): status 0, pagination currentPage 1 and count
30, two identical trades, responsetime 2019-03-28T09:28:07.980Z. -/
def scenarioABody : String :=
  "\x7b\"status\":0,\"data\":\x7b\"pagination\":\x7b\"currentPage\":1,\"count\":30\x7d,\"list\":[\x7b\"price\":\"750760\",\"side\":\"BUY\",\"size\":\"0.1\",\"timestamp\":\"2018-03-30T12:34:56.789Z\"\x7d,\x7b\"price\":\"750760\",\"side\":\"BUY\",\"size\":\"0.1\",\"timestamp\":\"2018-03-30T12:34:56.789Z\"\x7d]\x7d,\"responsetime\":\"2019-03-28T09:28:07.980Z\"\x7d"

/-- The sample trade of the Scenario A body: price 750760, side BUY, size
0.1, timestamp 2018-03-30T12:34:56.789Z. -/
def scenarioATrade : Trade := ⟨750760, "BUY", ⟨1, -1⟩, ⟨2018, 3, 30, 12, 34, 56, 789⟩⟩

/-- The decoded Scenario A envelope. -/
def scenarioAEnvelope : Trades :=
  ⟨0, ⟨2019, 3, 28, 9, 28, 7, 980⟩, ⟨[scenarioATrade, scenarioATrade], ⟨1, 30⟩⟩⟩

/-- The Scenario D response body: Scenario A with the first trade's
`price` field holding the non-numeric string "abc". -/
def scenarioDBody : String :=
  "\x7b\"status\":0,\"data\":\x7b\"pagination\":\x7b\"currentPage\":1,\"count\":30\x7d,\"list\":[\x7b\"price\":\"abc\",\"side\":\"BUY\",\"size\":\"0.1\",\"timestamp\":\"2018-03-30T12:34:56.789Z\"\x7d]\x7d,\"responsetime\":\"2019-03-28T09:28:07.980Z\"\x7d"

deriving instance DecidableEq for Except

/-! ## Digit arithmetic lemmas -/

theorem isDigitB_digitChar10 {d : Nat} (h : d < 10) : isDigitB (digitChar10 d) = true := by
  interval_cases d <;> decide

theorem digitVal_digitChar10 {d : Nat} (h : d < 10) : digitVal (digitChar10 d) = d := by
  interval_cases d <;> decide

theorem natDigits_ne_nil (f n : Nat) (hf : 0 < f) : natDigits f n ≠ [] := by
  cases f with
  | zero => omega
  | succ f =>
    simp only [natDigits]
    split
    · simp
    · simp

theorem natDigits_all_digits : ∀ f n : Nat, n < f → (natDigits f n).all isDigitB = true := by
  intro f
  induction f with
  | zero => omega
  | succ f ih =>
    intro n h
    simp only [natDigits]
    split
    · next h10 => simp [isDigitB_digitChar10 h10]
    · next h10 =>
      push_neg at h10
      have hlt : n / 10 < n := Nat.div_lt_self (by omega) (by omega)
      rw [List.all_append]
      simp [ih (n / 10) (by omega), isDigitB_digitChar10 (Nat.mod_lt n (by omega))]

theorem foldl_digits_acc : ∀ (l : List Char) (acc : Nat),
    l.foldl (fun a c => 10 * a + digitVal c) acc =
      acc * 10 ^ l.length + l.foldl (fun a c => 10 * a + digitVal c) 0 := by
  intro l
  induction l with
  | nil => intro acc; simp
  | cons c t ih =>
    intro acc
    simp only [List.foldl_cons]
    rw [ih (10 * acc + digitVal c), ih (10 * 0 + digitVal c)]
    simp only [List.length_cons]
    ring

theorem digitsVal_cons (c : Char) (t : List Char) :
    digitsVal (c :: t) = digitVal c * 10 ^ t.length + digitsVal t := by
  simp only [digitsVal, List.foldl_cons]
  rw [foldl_digits_acc]
  ring

theorem digitsVal_append (a b : List Char) :
    digitsVal (a ++ b) = digitsVal a * 10 ^ b.length + digitsVal b := by
  simp only [digitsVal, List.foldl_append]
  rw [foldl_digits_acc]

theorem digitsVal_append_last (ds : List Char) (c : Char) :
    digitsVal (ds ++ [c]) = 10 * digitsVal ds + digitVal c := by
  rw [digitsVal_append]
  simp [digitsVal]
  ring

theorem digitsVal_natDigits : ∀ f n : Nat, n < f → digitsVal (natDigits f n) = n := by
  intro f
  induction f with
  | zero => omega
  | succ f ih =>
    intro n h
    simp only [natDigits]
    split
    · next h10 =>
      rw [digitsVal_cons]
      simp [digitsVal, digitVal_digitChar10 h10]
    · next h10 =>
      push_neg at h10
      have hlt : n / 10 < n := Nat.div_lt_self (by omega) (by omega)
      rw [digitsVal_append_last, ih (n / 10) (by omega),
        digitVal_digitChar10 (Nat.mod_lt n (by omega))]
      omega

theorem digitsVal_encodeNat (n : Nat) : digitsVal (encodeNat n) = n :=
  digitsVal_natDigits (n + 1) n (Nat.lt_succ_self n)

theorem encodeNat_all_digits (n : Nat) : (encodeNat n).all isDigitB = true :=
  natDigits_all_digits (n + 1) n (Nat.lt_succ_self n)

theorem encodeNat_ne_nil (n : Nat) : encodeNat n ≠ [] :=
  natDigits_ne_nil (n + 1) n (Nat.succ_pos n)

theorem natDigits_length_le : ∀ f n w : Nat, n < f → n < 10 ^ w → 1 ≤ w →
    (natDigits f n).length ≤ w := by
  intro f
  induction f with
  | zero => omega
  | succ f ih =>
    intro n w hf hw h1
    simp only [natDigits]
    split
    · simpa using h1
    · next h10 =>
      push_neg at h10
      have hw2 : 2 ≤ w := by
        rcases Nat.lt_or_ge w 2 with hlt | hge
        · have : w = 1 := by omega
          subst this
          rw [pow_one] at hw
          omega
        · exact hge
      have hdivpow : n / 10 < 10 ^ (w - 1) := by
        rw [Nat.div_lt_iff_lt_mul (by omega)]
        calc n < 10 ^ w := hw
          _ = 10 ^ (w - 1) * 10 := by
              rw [← pow_succ]
              congr 1
              omega
      have hlt : n / 10 < n := Nat.div_lt_self (by omega) (by omega)
      have := ih (n / 10) (w - 1) (by omega) hdivpow (by omega)
      rw [List.length_append]
      simp only [List.length_cons, List.length_nil]
      omega

theorem padNat_all_digits (w n : Nat) : (padNat w n).all isDigitB = true := by
  rw [padNat, List.all_append, Bool.and_eq_true]
  refine ⟨?_, encodeNat_all_digits n⟩
  rw [List.all_eq_true]
  intro c hc
  rw [List.eq_of_mem_replicate hc]
  decide

theorem padNat_length (w n : Nat) (h1 : 1 ≤ w) (h : n < 10 ^ w) :
    (padNat w n).length = w := by
  rw [padNat, List.length_append, List.length_replicate]
  have := natDigits_length_le (n + 1) n w (Nat.lt_succ_self n) h h1
  rw [encodeNat] at *
  omega

theorem digitsVal_replicate_zero : ∀ (k : Nat) (l : List Char),
    digitsVal (List.replicate k '0' ++ l) = digitsVal l := by
  intro k
  induction k with
  | zero => intro l; simp
  | succ k ih =>
    intro l
    rw [List.replicate_succ, List.cons_append]
    simp only [digitsVal, List.foldl_cons]
    have h0 : 10 * 0 + digitVal '0' = 0 := by decide
    rw [h0]
    exact ih l

theorem digitsVal_padNat (w n : Nat) : digitsVal (padNat w n) = n := by
  rw [padNat, digitsVal_replicate_zero, digitsVal_encodeNat]

theorem padNat_ne_nil (w n : Nat) : padNat w n ≠ [] := by
  rw [padNat]
  intro h
  rcases List.append_eq_nil.mp h with ⟨_, h2⟩
  exact encodeNat_ne_nil n h2

/-! ## Round trip of the integer and decimal converters -/

theorem stripSign_head_digit (c : Char) (r : List Char) (hc : isDigitB c = true) :
    stripSign (c :: r) = (1, c :: r) := by
  have h1 : c ≠ '-' := by
    intro h
    subst h
    exact absurd hc (by decide)
  have h2 : c ≠ '+' := by
    intro h
    subst h
    exact absurd hc (by decide)
  rw [stripSign, if_neg h1, if_neg h2]

theorem stripSign_all_digits (ds : List Char) (hne : ds ≠ [])
    (hall : ds.all isDigitB = true) : stripSign ds = (1, ds) := by
  cases ds with
  | nil => exact absurd rfl hne
  | cons c t =>
    rw [List.all_cons, Bool.and_eq_true] at hall
    exact stripSign_head_digit c t hall.1

theorem i64Core_digits (s : String) (ds : List Char) (hne : ds ≠ [])
    (hall : ds.all isDigitB = true) (hr : inI64 (digitsVal ds : Int) = true) :
    i64Core s 1 ds = .ok (digitsVal ds : Int) := by
  rw [i64Core, if_pos ⟨hne, hall⟩]
  rw [one_mul, if_pos hr]

theorem inI64_iff (n : Int) : inI64 n = true ↔ -(2 ^ 63) ≤ n ∧ n < 2 ^ 63 := by
  simp [inI64]

theorem i64_roundtrip (n : Int) (hlo : -(2 ^ 63) ≤ n) (hhi : n < 2 ^ 63) :
    i64OfString (encodeI64 n) = .ok n := by
  rcases le_or_lt 0 n with hpos | hneg
  · have htl : (encodeI64 n).toList = encodeNat n.natAbs := by
      rw [encodeI64, if_neg (by omega)]
      rfl
    have habs : ((digitsVal (encodeNat n.natAbs) : Nat) : Int) = n := by
      rw [digitsVal_encodeNat]
      omega
    rw [i64OfString, htl,
      stripSign_all_digits _ (encodeNat_ne_nil _) (encodeNat_all_digits _)]
    rw [i64Core_digits _ _ (encodeNat_ne_nil _) (encodeNat_all_digits _)
      (by rw [habs, inI64_iff]; exact ⟨hlo, hhi⟩)]
    rw [habs]
  · have htl : (encodeI64 n).toList = '-' :: encodeNat n.natAbs := by
      rw [encodeI64, if_pos hneg]
      rfl
    have hstrip : stripSign ('-' :: encodeNat n.natAbs) = (-1, encodeNat n.natAbs) := by
      rw [stripSign, if_pos rfl]
    have habs : (-1 : Int) * ((digitsVal (encodeNat n.natAbs) : Nat) : Int) = n := by
      rw [digitsVal_encodeNat]
      omega
    rw [i64OfString, htl, hstrip]
    rw [i64Core, if_pos ⟨encodeNat_ne_nil _, encodeNat_all_digits _⟩]
    rw [habs, if_pos ((inI64_iff n).mpr ⟨hlo, hhi⟩)]

theorem splitAtDot_append (a b : List Char) (ha : a.all isDigitB = true) :
    splitAtDot (a ++ '.' :: b) = (a, some b) := by
  induction a with
  | nil => simp [splitAtDot]
  | cons c r ih =>
    rw [List.all_cons, Bool.and_eq_true] at ha
    have hc : c ≠ '.' := by
      intro h
      subst h
      exact absurd ha.1 (by decide)
    rw [List.cons_append, splitAtDot, if_neg hc, ih ha.2]

theorem f64_roundtrip (units prec frac : Nat) (hp : 1 ≤ prec) (hf : frac < 10 ^ prec) :
    f64OfString (encodeFixedDec units prec frac) =
      .ok ⟨(units : Int) * 10 ^ prec + (frac : Int), -(prec : Int)⟩ := by
  have htl : (encodeFixedDec units prec frac).toList =
      encodeNat units ++ '.' :: padNat prec frac := rfl
  obtain ⟨c, t, hct⟩ := List.exists_cons_of_ne_nil (encodeNat_ne_nil units)
  have hcd : isDigitB c = true := by
    have := encodeNat_all_digits units
    rw [hct, List.all_cons, Bool.and_eq_true] at this
    exact this.1
  have hstrip : stripSign (encodeNat units ++ '.' :: padNat prec frac) =
      (1, encodeNat units ++ '.' :: padNat prec frac) := by
    rw [hct, List.cons_append]
    exact stripSign_head_digit _ _ hcd
  have hsplit := splitAtDot_append (encodeNat units) (padNat prec frac)
    (encodeNat_all_digits units)
  rw [f64OfString, htl, hstrip, hsplit]
  rw [f64Core, if_pos ⟨encodeNat_ne_nil units, encodeNat_all_digits units,
    padNat_ne_nil prec frac, padNat_all_digits prec frac⟩]
  have hval : digitsVal (encodeNat units ++ padNat prec frac) =
      units * 10 ^ prec + frac := by
    rw [digitsVal_append, digitsVal_encodeNat, digitsVal_padNat,
      padNat_length prec frac hp hf]
  rw [hval, padNat_length prec frac hp hf]
  congr 1
  push_cast
  ring_nf

/-- The denoted rational of the fixed-point decimal produced by the
round trip, in plain arithmetic form. -/
theorem decimalVal_fixed_toRat (units prec frac : Nat) :
    DecimalVal.toRat ⟨(units : Int) * 10 ^ prec + (frac : Int), -(prec : Int)⟩ =
      (units : Rat) + (frac : Rat) / 10 ^ prec := by
  rw [DecimalVal.toRat]
  have h10 : ((10 : Rat) ^ (prec : Nat)) ≠ 0 := by positivity
  rw [zpow_neg, zpow_natCast]
  push_cast
  field_simp

theorem daysInMonth_le_31 (y m : Nat) : daysInMonth y m ≤ 31 := by
  rw [daysInMonth]
  split_ifs <;> omega

theorem expectChar_cons (c : Char) (rest : List Char) :
    expectChar c (c :: rest) = .ok rest := by
  rw [expectChar, if_pos rfl]

theorem fixedNat_padNat (w n : Nat) (rest : List Char) (h1 : 1 ≤ w) (h : n < 10 ^ w) :
    fixedNat w (padNat w n ++ rest) = .ok (n, rest) := by
  have hlen := padNat_length w n h1 h
  rw [fixedNat, List.take_left' hlen, List.drop_left' hlen,
    if_pos ⟨hlen, padNat_all_digits w n⟩, digitsVal_padNat]

theorem DateTime.valid_fields (t : DateTime) (hv : t.valid = true) :
    t.year ≤ 9999 ∧ 1 ≤ t.month ∧ t.month ≤ 12 ∧ 1 ≤ t.day ∧
      t.day ≤ daysInMonth t.year t.month ∧ t.hour < 24 ∧ t.minute < 60 ∧
      t.second < 60 ∧ t.millis < 1000 := by
  rw [DateTime.valid] at hv
  simp only [Bool.and_eq_true, decide_eq_true_eq] at hv
  tauto

theorem gmo_roundtrip (t : DateTime) (hv : t.valid = true) :
    parseGmoTimestamp (encodeGmoTimestamp t) = .ok t := by
  obtain ⟨hy, hm1, hm2, hd1, hd2, hh, hmi, hs, hms⟩ := DateTime.valid_fields t hv
  have hdm := daysInMonth_le_31 t.year t.month
  have p10_4 : (10 : Nat) ^ 4 = 10000 := by norm_num
  have p10_2 : (10 : Nat) ^ 2 = 100 := by norm_num
  have p10_3 : (10 : Nat) ^ 3 = 1000 := by norm_num
  have e1 : ∀ rest, fixedNat 4 (padNat 4 t.year ++ rest) = .ok (t.year, rest) :=
    fun rest => fixedNat_padNat 4 t.year rest (by omega) (by omega)
  have e2 : ∀ rest, fixedNat 2 (padNat 2 t.month ++ rest) = .ok (t.month, rest) :=
    fun rest => fixedNat_padNat 2 t.month rest (by omega) (by omega)
  have e3 : ∀ rest, fixedNat 2 (padNat 2 t.day ++ rest) = .ok (t.day, rest) :=
    fun rest => fixedNat_padNat 2 t.day rest (by omega) (by omega)
  have e4 : ∀ rest, fixedNat 2 (padNat 2 t.hour ++ rest) = .ok (t.hour, rest) :=
    fun rest => fixedNat_padNat 2 t.hour rest (by omega) (by omega)
  have e5 : ∀ rest, fixedNat 2 (padNat 2 t.minute ++ rest) = .ok (t.minute, rest) :=
    fun rest => fixedNat_padNat 2 t.minute rest (by omega) (by omega)
  have e6 : ∀ rest, fixedNat 2 (padNat 2 t.second ++ rest) = .ok (t.second, rest) :=
    fun rest => fixedNat_padNat 2 t.second rest (by omega) (by omega)
  have e7 : ∀ rest, fixedNat 3 (padNat 3 t.millis ++ rest) = .ok (t.millis, rest) :=
    fun rest => fixedNat_padNat 3 t.millis rest (by omega) (by omega)
  have hcs : (encodeGmoTimestamp t).toList =
      padNat 4 t.year ++ '-' :: (padNat 2 t.month ++ '-' :: (padNat 2 t.day ++
        'T' :: (padNat 2 t.hour ++ ':' :: (padNat 2 t.minute ++ ':' :: (padNat 2 t.second ++
        '.' :: (padNat 3 t.millis ++ ['Z'])))))) := by
    simp [encodeGmoTimestamp, List.append_assoc, List.cons_append]
  simp only [parseGmoTimestamp, hcs, e1, e2, e3, e4, e5, e6, e7, expectChar_cons,
    bind, Except.bind]
  rw [if_pos ⟨trivial, hv⟩]



theorem parseGmo_ok_valid (s : String) (t : DateTime)
    (h : parseGmoTimestamp s = .ok t) : t.valid = true := by
  simp only [parseGmoTimestamp, bind, Except.bind] at h
  repeat' split at h
  all_goals first
    | exact Except.noConfusion h
    | (rename_i hcond
       injection h with h2
       subst h2
       exact hcond.2)



theorem digitsVal_eq_ofDigits (ds : List Char) :
    digitsVal ds = Nat.ofDigits 10 ((ds.map digitVal).reverse) := by
  induction ds with
  | nil => simp [digitsVal, Nat.ofDigits]
  | cons c t ih =>
    rw [digitsVal_cons, List.map_cons, List.reverse_cons, Nat.ofDigits_append, ih]
    simp [Nat.ofDigits_singleton]
    ring

theorem i64Core_ok (s : String) (sgn : Int) (ds : List Char) (n : Int)
    (h : i64Core s sgn ds = .ok n) :
    ds ≠ [] ∧ (∀ c ∈ ds, isDigitB c = true) ∧
      n = sgn * ((Nat.ofDigits 10 ((ds.map digitVal).reverse) : Nat) : Int) ∧
      -(2 ^ 63) ≤ n ∧ n < 2 ^ 63 := by
  rw [i64Core] at h
  split at h
  · rename_i hcond
    split at h
    · rename_i hrange
      injection h with h2
      subst h2
      refine ⟨hcond.1, List.all_eq_true.mp hcond.2, ?_, ?_, ?_⟩
      · rw [digitsVal_eq_ofDigits]
      · exact ((inI64_iff _).mp hrange).1
      · exact ((inI64_iff _).mp hrange).2
    · exact Except.noConfusion h
  · exact Except.noConfusion h

theorem i64OfString_sound (s : String) (n : Int) (h : i64OfString s = .ok n) :
    denotesI64 s n := by
  rw [i64OfString] at h
  rcases hl : s.toList with _ | ⟨c, r⟩ <;> rw [hl] at h
  · rw [show stripSign [] = ((1 : Int), ([] : List Char)) from rfl] at h
    obtain ⟨hne, _⟩ := i64Core_ok _ _ _ _ h
    exact absurd rfl hne
  · by_cases hm : c = '-'
    · subst hm
      rw [show stripSign ('-' :: r) = (-1, r) from by rw [stripSign]; simp] at h
      obtain ⟨hne, hdig, hval, hlo, hhi⟩ := i64Core_ok _ _ _ _ h
      exact ⟨-1, r, Or.inr (Or.inr ⟨rfl, hl⟩), hne, hdig, hval, hlo, hhi⟩
    · by_cases hp : c = '+'
      · subst hp
        rw [show stripSign ('+' :: r) = (1, r) from by rw [stripSign]; simp] at h
        obtain ⟨hne, hdig, hval, hlo, hhi⟩ := i64Core_ok _ _ _ _ h
        exact ⟨1, r, Or.inr (Or.inl ⟨rfl, hl⟩), hne, hdig, hval, hlo, hhi⟩
      · rw [show stripSign (c :: r) = (1, c :: r) from by
          rw [stripSign, if_neg hm, if_neg hp]] at h
        obtain ⟨hne, hdig, hval, hlo, hhi⟩ := i64Core_ok _ _ _ _ h
        exact ⟨1, c :: r, Or.inl ⟨rfl, hl⟩, hne, hdig, hval, hlo, hhi⟩

theorem i64OfString_complete (s : String) (n : Int) (hd : denotesI64 s n) :
    i64OfString s = .ok n := by
  obtain ⟨sgn, ds, hbr, hne, hdig, hval, hlo, hhi⟩ := hd
  have hall : ds.all isDigitB = true := List.all_eq_true.mpr hdig
  have hvd : n = sgn * (digitsVal ds : Int) := by rw [hval, digitsVal_eq_ofDigits]
  have hcore : i64Core s sgn ds = .ok n := by
    rw [i64Core, if_pos ⟨hne, hall⟩, ← hvd, if_pos ((inI64_iff n).mpr ⟨hlo, hhi⟩)]
  rcases hbr with ⟨hs1, hls⟩ | ⟨hs1, hls⟩ | ⟨hs1, hls⟩ <;> subst hs1 <;>
    rw [i64OfString, hls]
  · rw [stripSign_all_digits ds hne hall]
    exact hcore
  · rw [show stripSign ('+' :: ds) = (1, ds) from by rw [stripSign]; simp]
    exact hcore
  · rw [show stripSign ('-' :: ds) = (-1, ds) from by rw [stripSign]; simp]
    exact hcore

/-! ## The claims -/

/-- C1: with a transport returning HTTP status 200 and the Scenario A JSON
body, `get_trades` returns `Ok` with `http_status_code` 200, body `status`
0, `responsetime` equal to the instant 2019-03-28T09:28:07.980Z UTC,
pagination `count` 30 and `currentPage` 1, and a trades list of length
2. -/
theorem claim_C1 :
    ∃ r : RestResponse Trades,
      get_trades (InmemClient.get ⟨200, scenarioABody, false⟩) Symbol.Btc = .ok r ∧
      r.http_status_code = 200 ∧ r.body.status = 0 ∧
      r.body.responsetime = ⟨2019, 3, 28, 9, 28, 7, 980⟩ ∧
      r.pagination.count = 30 ∧ r.pagination.currentPage = 1 ∧
      r.trades.length = 2 :=
  ⟨⟨200, scenarioAEnvelope⟩, by decide, rfl, rfl, rfl, rfl, rfl, rfl⟩

/-- C2 (the documented code defect): the claim that the network adapter
surfaces a malformed URL as a typed transport error fails on the code.
`Reqwest::get` calls `unwrap` on the URL parse result, so on the malformed
URL `"not a url"` it aborts the process — for every possible network
behavior — and never returns a typed error value or a response. -/
theorem claim_C2_code_bug (network : String → Except Error RawResponse) :
    Reqwest.get network "not a url" = .panicked "unwrap on a URL parse failure" ∧
    (∀ e : Error, Reqwest.get network "not a url" ≠ .fail e) ∧
    (∀ r : RawResponse, Reqwest.get network "not a url" ≠ .ok r) := by
  have hp : reqwestUrlParse "not a url" = none := by decide
  refine ⟨?_, ?_, ?_⟩ <;> simp [Reqwest.get, hp]

/-- C3: whenever the transport succeeds with HTTP status 200 but the body
does not decode as the trades envelope, `get_trades` (and
`get_trades_with_options`, for every page and count) returns a decode
error, an error value distinct from both transport-error variants. -/
theorem claim_C3 (body msg : String) (symbol : Symbol) (page count : Int)
    (h : decodeTradesBody body = .error msg) :
    get_trades (InmemClient.get ⟨200, body, false⟩) symbol = .error (.DecodeError msg) ∧
    get_trades_with_options (InmemClient.get ⟨200, body, false⟩) symbol page count =
      .error (.DecodeError msg) ∧
    (∀ m, Error.DecodeError msg ≠ Error.TransportError m) ∧
    Error.DecodeError msg ≠ Error.UnknownError := by
  refine ⟨?_, ?_, by simp, by simp⟩ <;>
    simp [get_trades, get_trades_with_options, InmemClient.get,
      parse_from_http_response, h, bind, Except.bind]

/-- Witness for C3: the malformed body "nonsense" under status 200. -/
theorem claim_C3_witness :
    decodeTradesBody "nonsense" = .error "bad literal" ∧
    get_trades (InmemClient.get ⟨200, "nonsense", false⟩) Symbol.Btc =
      .error (.DecodeError "bad literal") :=
  ⟨by decide, (claim_C3 "nonsense" "bad literal" Symbol.Btc 2 50 (by decide)).1⟩

/-- C4: the string-to-number converters fail with a descriptive parse
error on any non-numeric input and never substitute a default: the `i64`
parser accepts a string exactly when it denotes an in-range integer (and
then returns exactly the denoted value), the timestamp parser only ever
returns calendar-valid instants, and a body whose `price` is the
non-numeric string "abc" makes the whole decode fail with the parse
error naming that string. -/
theorem claim_C4 :
    (∀ s n, i64OfString s = .ok n → denotesI64 s n) ∧
    (∀ s n, denotesI64 s n → i64OfString s = .ok n) ∧
    (∀ s, ¬ (∃ n, denotesI64 s n) → ∃ msg, i64OfString s = .error msg) ∧
    (∀ s t, parseGmoTimestamp s = .ok t → t.valid = true) ∧
    decodeTradesBody scenarioDBody = .error "invalid integer string: abc" ∧
    get_trades (InmemClient.get ⟨200, scenarioDBody, false⟩) Symbol.Btc =
      .error (.DecodeError "invalid integer string: abc") := by
  refine ⟨i64OfString_sound, i64OfString_complete, ?_, parseGmo_ok_valid,
    by decide, by decide⟩
  intro s hno
  cases hcase : i64OfString s with
  | ok n => exact absurd ⟨n, i64OfString_sound s n hcase⟩ hno
  | error m => exact ⟨m, rfl⟩

/-- Witness for C4: the numeral "750760" denotes 750760, and the parsed
sample timestamp is calendar-valid. -/
theorem claim_C4_witness :
    denotesI64 "750760" 750760 ∧
    DateTime.valid ⟨2019, 3, 28, 9, 28, 7, 980⟩ = true :=
  ⟨claim_C4.1 "750760" 750760 (by decide),
   claim_C4.2.2.2.1 "2019-03-28T09:28:07.980Z" ⟨2019, 3, 28, 9, 28, 7, 980⟩ (by decide)⟩

/-- C5: `get_trades` is exactly `get_trades_with_options` at the
documented defaults page 1 and count 100, for every transport and symbol;
the URL it builds ends in `page=1&count=100`. -/
theorem claim_C5 (http_client : HttpClient) (symbol : Symbol) :
    get_trades http_client symbol = get_trades_with_options http_client symbol 1 100 ∧
    ∃ pre, tradesUrl symbol 1 100 = pre ++ "page=1&count=100" := by
  refine ⟨rfl, PUBLIC_ENDPOINT ++ TRADES_API_PATH ++ "?symbol=" ++ to_string symbol ++ "&",
    ?_⟩
  cases symbol <;> decide

/-- C6: `get_trades_with_options` passes the transport exactly the URL
`{base-endpoint}/v1/trades?symbol={symbol}&page={page}&count={count}`
(symbol in canonical string form) together with the empty header set —
the `get` operation carries no request body at all — and the explicit
pair page 2, count 50 yields a URL containing `page=2&count=50`. -/
theorem claim_C6 (http_client : HttpClient) (symbol : Symbol) (page count : Int) :
    get_trades_with_options http_client symbol page count =
      (http_client (tradesUrl symbol page count) Headers.create_empty_headers).bind
        parse_from_http_response ∧
    tradesUrl symbol page count =
      PUBLIC_ENDPOINT ++ TRADES_API_PATH ++ "?symbol=" ++ to_string symbol ++
        "&page=" ++ toString page ++ "&count=" ++ toString count ∧
    Headers.create_empty_headers = ([] : Headers) ∧
    ∃ pre, tradesUrl symbol 2 50 = pre ++ "page=2&count=50" := by
  refine ⟨rfl, rfl, rfl,
    PUBLIC_ENDPOINT ++ TRADES_API_PATH ++ "?symbol=" ++ to_string symbol ++ "&", ?_⟩
  cases symbol <;> decide

/-- C7: decoding composed with the canonical wire encoding is the
identity on values — exactly for `i64` fields (price, currentPage,
count), exactly for the idealized decimal value of `size` (whose denoted
rational is the expected `units + frac / 10 ^ prec`), and exactly for
calendar-valid UTC instants. -/
theorem claim_C7 :
    (∀ n : Int, -(2 ^ 63) ≤ n → n < 2 ^ 63 → i64OfString (encodeI64 n) = .ok n) ∧
    (∀ units prec frac : Nat, 1 ≤ prec → frac < 10 ^ prec →
      f64OfString (encodeFixedDec units prec frac) =
          .ok ⟨(units : Int) * 10 ^ prec + (frac : Int), -(prec : Int)⟩ ∧
        DecimalVal.toRat ⟨(units : Int) * 10 ^ prec + (frac : Int), -(prec : Int)⟩ =
          (units : Rat) + (frac : Rat) / 10 ^ prec) ∧
    (∀ t : DateTime, t.valid = true → parseGmoTimestamp (encodeGmoTimestamp t) = .ok t) :=
  ⟨i64_roundtrip,
   fun u p f hp hf => ⟨f64_roundtrip u p f hp hf, decimalVal_fixed_toRat u p f⟩,
   gmo_roundtrip⟩

/-- Witness for C7: the Scenario A wire values 750760, 0.1 and
2019-03-28T09:28:07.980Z each round-trip. -/
theorem claim_C7_witness :
    i64OfString (encodeI64 750760) = .ok 750760 ∧
    f64OfString (encodeFixedDec 0 1 1) =
      .ok ⟨(0 : Int) * 10 ^ 1 + (1 : Int), -(1 : Int)⟩ ∧
    parseGmoTimestamp (encodeGmoTimestamp ⟨2019, 3, 28, 9, 28, 7, 980⟩) =
      .ok ⟨2019, 3, 28, 9, 28, 7, 980⟩ :=
  ⟨claim_C7.1 750760 (by decide) (by decide),
   (claim_C7.2.1 0 1 1 (by decide) (by decide)).1,
   claim_C7.2.2 ⟨2019, 3, 28, 9, 28, 7, 980⟩ (by decide)⟩

/-- C8: the test double with the error flag unset is a deterministic pure
function of its configuration — every call returns exactly the configured
status and body, and two calls agree whatever their URLs and headers (so
the result is independent of the URL and of any earlier calls). -/
theorem claim_C8 (sc : Nat) (body : String) (u1 u2 : String) (h1 h2 : Headers) :
    InmemClient.get ⟨sc, body, false⟩ u1 h1 = .ok ⟨sc, body⟩ ∧
    InmemClient.get ⟨sc, body, false⟩ u1 h1 = InmemClient.get ⟨sc, body, false⟩ u2 h2 :=
  ⟨rfl, rfl⟩

/-- C9: with the error flag set, every call of the test double returns
the opaque error — never a response — regardless of URL, headers and the
configured status/body; consequently `get_trades` and
`get_trades_with_options` through such a transport return that error for
every symbol, page and count. -/
theorem claim_C9 (sc : Nat) (body : String) (url : String) (hs : Headers)
    (symbol : Symbol) (page count : Int) :
    InmemClient.get ⟨sc, body, true⟩ url hs = .error .UnknownError ∧
    (∀ r : RawResponse, InmemClient.get ⟨sc, body, true⟩ url hs ≠ .ok r) ∧
    get_trades_with_options (InmemClient.get ⟨sc, body, true⟩) symbol page count =
      .error .UnknownError ∧
    get_trades (InmemClient.get ⟨sc, body, true⟩) symbol = .error .UnknownError :=
  ⟨rfl, fun _ h => Except.noConfusion h, rfl, rfl⟩

/-- C10 (implicit): the decode layer never inspects the HTTP status code —
whenever the body decodes as a valid trades envelope, `get_trades` (and
`get_trades_with_options`) returns `Ok` carrying the transport's status
code unchanged, whatever that status is. -/
theorem claim_C10 (status : Nat) (body : String) (t : Trades) (symbol : Symbol)
    (page count : Int) (h : decodeTradesBody body = .ok t) :
    get_trades (InmemClient.get ⟨status, body, false⟩) symbol = .ok ⟨status, t⟩ ∧
    get_trades_with_options (InmemClient.get ⟨status, body, false⟩) symbol page count =
      .ok ⟨status, t⟩ := by
  constructor <;>
    simp [get_trades, get_trades_with_options, InmemClient.get,
      parse_from_http_response, h, bind, Except.bind]

/-- Witness for C10: the Scenario A body under the error status 404 still
decodes, and the 404 is carried through unchanged. -/
theorem claim_C10_witness :
    get_trades (InmemClient.get ⟨404, scenarioABody, false⟩) Symbol.Btc =
      .ok ⟨404, scenarioAEnvelope⟩ :=
  (claim_C10 404 scenarioABody scenarioAEnvelope Symbol.Btc 1 100 (by decide)).1

end GmoCoin
